import Mathlib

/-!
Verification of the lexer (src/compiler/lexer.rs) and the emitter
(src/compiler/emitter.rs) of a small C compiler.

Conventions of the embedding:
* Rust `Vec<Token>` is `List Token`; `String` is Lean `String`; `Chars` is
  `List Char` (the iterator's remaining characters).
* A Rust panic (including `panic!`, `.expect`, arithmetic overflow in debug
  builds and out-of-bounds indexing) is modelled as `Except.error` carrying a
  `Panic` value with the panic message; `.error` therefore means the process
  aborts.  A recoverable Rust `Result::Err` is modelled as `Except.error` over
  a plain `String` (only `match_identifier_or_constant` and
  `match_non_symbol_token` return such values).
* The two regular expressions of `match_identifier_or_constant`
  (`^[a-zA-Z_]\w*\b$` and `^[0-9]+\b$`) are embedded as executable character
  predicates.  `\w` is modelled as ASCII `[a-zA-Z0-9_]`, which agrees with the
  Rust regex on the ASCII character set the grammar supports; the trailing
  `\b$` is automatic for any value fully matched by the preceding word-class
  pattern, because its last character is then a word character.
-/

set_option linter.unusedVariables false

/-- Comment token kinds, from lexer.rs `CommentToken`. -/
inductive CommentToken where
  | LineComment
  | BlockComment
  | PendingComment
deriving DecidableEq, Repr

/-- Symbol token kinds, from lexer.rs `SymbolToken`. -/
inductive SymbolToken where
  | OpenParen
  | CloseParen
  | OpenBrace
  | CloseBrace
  | Semicolon
  | Quote
  | Whitespace
  | CommentSymbol
  | Minus
  | Decrement
  | Tilde
deriving DecidableEq, Repr

/-- Keyword kinds, from lexer.rs `KeywordToken`. -/
inductive KeywordToken where
  | Int
  | Void
  | Return
deriving DecidableEq, Repr

/-- Tokens, from lexer.rs `Token`. -/
inductive Token where
  | Identifier (text : String)
  | Constant (text : String)
  | Keyword (kind : KeywordToken)
  | Symbol (kind : SymbolToken)
  | Comment (kind : CommentToken)
deriving DecidableEq, Repr

/-- A Rust panic (process abort), carrying the panic message. -/
structure Panic where
  msg : String
deriving DecidableEq, Repr

deriving instance DecidableEq for Except

/-- lexer.rs `check_for_symbol`.  The brace characters are written with hex
escapes: `\x7b` is the opening brace and `\x7d` the closing brace. -/
def check_for_symbol (ch : Char) : Option SymbolToken :=
  match ch with
  | '(' => some .OpenParen
  | ')' => some .CloseParen
  | '\x7b' => some .OpenBrace
  | '\x7d' => some .CloseBrace
  | ';' => some .Semicolon
  | '\"' => some .Quote
  | '/' => some .CommentSymbol
  | '\n' | ' ' | '\t' => some .Whitespace
  | '-' => some .Minus
  | '~' => some .Tilde
  | _ => none

/-- The character class `[a-zA-Z_]` of the identifier regex, by ASCII code:
97 to 122 is a to z, 65 to 90 is A to Z, 95 is the underscore. -/
def is_ident_start (c : Char) : Bool :=
  (97 ≤ c.toNat && c.toNat ≤ 122) || (65 ≤ c.toNat && c.toNat ≤ 90) || c.toNat = 95

/-- The word class `\w` restricted to ASCII: `[a-zA-Z0-9_]` (48 to 57 is 0
to 9). -/
def is_word_char (c : Char) : Bool :=
  is_ident_start c || (48 ≤ c.toNat && c.toNat ≤ 57)

/-- Whether the identifier regex `^[a-zA-Z_]\w*\b$` of
`match_identifier_or_constant` matches the whole value. -/
def identifier_is_match : List Char → Bool
  | [] => false
  | c :: rest => is_ident_start c && rest.all is_word_char

/-- Whether the constant regex `^[0-9]+\b$` of `match_identifier_or_constant`
matches the whole value. -/
def constant_is_match (l : List Char) : Bool :=
  !l.isEmpty && l.all (fun c => 48 ≤ c.toNat && c.toNat ≤ 57)

/-- lexer.rs `match_identifier_or_constant`.  The `Err` value is recoverable
(an `std::io::Error` in the source); its message carries the offending text. -/
def match_identifier_or_constant (value : String) : Except String Token :=
  if identifier_is_match value.data then .ok (.Identifier value)
  else if constant_is_match value.data then .ok (.Constant value)
  else .error (value ++ " did not match an identifier or a constant")

/-- lexer.rs `match_non_symbol_token`: exact keyword match first, then
identifier or constant classification. -/
def match_non_symbol_token (value : String) : Except String Token :=
  match value with
  | "int" => .ok (.Keyword .Int)
  | "void" => .ok (.Keyword .Void)
  | "return" => .ok (.Keyword .Return)
  | _ => match_identifier_or_constant value

/-- lexer.rs `ReadState`: the five states of the consumption machine, each
carrying the iterator of remaining characters. -/
inductive ReadState where
  | Ready (remaining_chars : List Char)
  | Building (remaining_chars : List Char) (current_value : String)
  | Done (remaining_chars : List Char) (token : Token)
  | HandlingComment (remaining_chars : List Char) (comment_value : CommentToken)
  | Exit
deriving Repr

/-- Remaining characters of a state, for the termination measure. -/
def stateChars : ReadState → List Char
  | .Ready cs => cs
  | .Building cs _ => cs
  | .Done cs _ => cs
  | .HandlingComment cs _ => cs
  | .Exit => []

/-- Weight of a state for the termination measure: every transition of the
loop either consumes a character or strictly lowers this weight. -/
def stateWeight : ReadState → Nat
  | .Exit => 0
  | .Ready _ => 1
  | .Done _ _ => 2
  | .Building _ _ => 3
  | .HandlingComment _ _ => 3

/-- The `loop` of lexer.rs `consume`, one recursive call per iteration.
Panics (the `panic!` calls and `.expect` unwraps of the source) are the
`.error` results.  In the `Building` arm the source peeks the next character
without consuming it, so the `Done` states there keep the full remaining
character list. -/
def consumeLoop (state : ReadState) (vec : List Token) : Except Panic (List Token) :=
  match state with
  | .Ready remaining_chars =>
    match remaining_chars with
    | [] => consumeLoop .Exit vec
    | char :: rest =>
      match check_for_symbol char with
      | some symbol =>
        match symbol with
        | .CommentSymbol => consumeLoop (.HandlingComment rest .PendingComment) vec
        | _ => consumeLoop (.Done rest (.Symbol symbol)) vec
      | none => consumeLoop (.Building rest char.toString) vec
  | .HandlingComment remaining_chars comment_token =>
    match comment_token with
    | .PendingComment =>
      match remaining_chars with
      | char :: rest =>
        if char = '/' then consumeLoop (.HandlingComment rest .LineComment) vec
        else if char = '*' then consumeLoop (.HandlingComment rest .BlockComment) vec
        else .error ⟨"Impossible comment value"⟩
      | [] => .error ⟨"Unexpected EOF"⟩
    | .LineComment =>
      match remaining_chars with
      | char :: rest =>
        if char = '\n' then consumeLoop (.Done rest (.Comment .LineComment)) vec
        else consumeLoop (.HandlingComment rest .LineComment) vec
      | [] => .error ⟨"Unexpected EOF"⟩
    | .BlockComment =>
      match remaining_chars with
      | [] => .error ⟨"Unexpected EOF"⟩
      | '*' :: rest =>
        match rest with
        | [] => .error ⟨"Unexpected EOF"⟩
        | '/' :: rest2 => consumeLoop (.Done rest2 (.Comment .BlockComment)) vec
        | _ :: rest2 => consumeLoop (.HandlingComment rest2 .BlockComment) vec
      | _ :: rest => consumeLoop (.HandlingComment rest .BlockComment) vec
  | .Building remaining_chars current_value =>
    match remaining_chars with
    | [] =>
      match match_non_symbol_token current_value with
      | .ok token => consumeLoop (.Done [] token) vec
      | .error e => .error ⟨"Non-symbol token matching raised an error: " ++ e⟩
    | char :: rest =>
      if (check_for_symbol char).isSome then
        match match_non_symbol_token current_value with
        | .ok token => consumeLoop (.Done (char :: rest) token) vec
        | .error e => .error ⟨"Non-symbol token matching raised an error: " ++ e⟩
      else if char = ' ' then
        match match_non_symbol_token current_value with
        | .ok token => consumeLoop (.Done (char :: rest) token) vec
        | .error e => .error ⟨"Non-symbol token matching raised an error: " ++ e⟩
      else
        consumeLoop (.Building rest (current_value.push char)) vec
  | .Done remaining_chars token => consumeLoop (.Ready remaining_chars) (vec ++ [token])
  | .Exit => .ok vec
termination_by 4 * (stateChars state).length + stateWeight state
decreasing_by all_goals simp [stateChars, stateWeight] <;> omega

/-- lexer.rs `consume`: run the machine from `Ready` on the remaining
characters with the given output vector. -/
def consume (chars : List Char) (vec : List Token) : Except Panic (List Token) :=
  consumeLoop (.Ready chars) vec

/-- The `while` loop of lexer.rs `postprocess_tokens`: `i` is the loop index,
the condition is `i < length - 1` (on `usize`), and a `Minus, Minus` pair at
`i, i + 1` is replaced in place by one `Decrement`. -/
def ppLoop (tokens : List Token) (i : Nat) : List Token :=
  if h : i < tokens.length - 1 then
    if tokens[i]? = some (.Symbol .Minus) ∧ tokens[i + 1]? = some (.Symbol .Minus) then
      ppLoop ((tokens.set i (.Symbol .Decrement)).eraseIdx (i + 1)) (i + 1)
    else ppLoop tokens (i + 1)
  else tokens
termination_by tokens.length - i
decreasing_by all_goals (simp [List.length_eraseIdx]; (try split) <;> omega)

/-- lexer.rs `postprocess_tokens`.  The first evaluation of the loop
condition computes `tokens.len() - 1` on `usize`; on an empty vector this
panics in debug builds with the overflow message modelled here (in release
builds it wraps around and the subsequent `tokens[0]` access panics instead,
so the function fails on an empty vector either way).  Afterwards the length
stays at least 1, so natural-number subtraction agrees with `usize`. -/
def postprocess_tokens (tokens : List Token) : Except Panic (List Token) :=
  if tokens.length = 0 then .error ⟨"attempt to subtract with overflow"⟩
  else .ok (ppLoop tokens 0)

/-- lexer.rs `lex`: consume all characters, then post-process; a panic in
either stage aborts. -/
def lex (code : String) : Except Panic (List Token) :=
  match consume code.data [] with
  | .ok tokens => postprocess_tokens tokens
  | .error p => .error p

/-! ## Emitter data model

The `asm_tree` module is not part of the measured source; its node types are
modelled from the spec (section 3, Resolved instruction tree) and from the
constructors the emitter consumes.  `Modelled from the spec:` the fourth
operand variant `Pseudo` is the unresolved pseudo-register the spec says
must never reach the emitter; it is the shape hit by the wildcard panic arm
of `direct_emit_operand`. -/

/-- Register names, spec section 3 and emitter.rs usage (`AX`, `R10`). -/
inductive ARegisterNode where
  | AX
  | R10
deriving DecidableEq, Repr

/-- Unary operators, spec section 3 and emitter.rs usage (`Neg`, `Not`). -/
inductive AUnaryOperatorNode where
  | Neg
  | Not
deriving DecidableEq, Repr

/-- Operands, spec section 3 and emitter.rs usage.  `Pseudo` is the
unresolved pseudo-register variant modelled from the spec. -/
inductive AOperandNode where
  | Imm (c : Int)
  | Reg (reg : ARegisterNode)
  | Stack (addr : Int)
  | Pseudo (name : String)
deriving DecidableEq, Repr

/-- Instructions, spec section 3 and emitter.rs usage. -/
inductive AInstructionNode where
  | Mov (src dst : AOperandNode)
  | Ret
  | Unary (operator : AUnaryOperatorNode) (operand : AOperandNode)
  | AllocateStack (size : Int)
deriving DecidableEq, Repr

/-- A function definition: name and owned instruction sequence. -/
inductive AFunctionDefinitionNode where
  | Function (name : String) (instructions : List AInstructionNode)
deriving DecidableEq, Repr

/-- A program owns exactly one function. -/
inductive AProgramNode where
  | Program (function : AFunctionDefinitionNode)
deriving DecidableEq, Repr

/-- emitter.rs `direct_emit_operand`.  The wildcard arm (an unresolved
pseudo-register) is the source's `panic!`. -/
def direct_emit_operand (a_operand : AOperandNode) : Except Panic String :=
  match a_operand with
  | .Imm c => .ok ("$" ++ toString c)
  | .Reg reg =>
    match reg with
    | .AX => .ok "%eax"
    | .R10 => .ok "%r10d"
  | .Stack addr => .ok (toString addr ++ "(%rbp)")
  | .Pseudo _ => .error ⟨"invalid operand found in emitter stage"⟩

/-- emitter.rs `direct_emit_operator`. -/
def direct_emit_operator (a_operator : AUnaryOperatorNode) : String :=
  match a_operator with
  | .Neg => "negl"
  | .Not => "notl"

/-- emitter.rs `emit_prologue`: appends the two prologue lines. -/
def emit_prologue (output : String) : String :=
  (output ++ "    pushq %rbp\n") ++ "    movq %rsp, %rbp\n"

/-- emitter.rs `emit_epilogue`: appends the two epilogue lines. -/
def emit_epilogue (output : String) : String :=
  (output ++ "   movq %rbp, %rsp\n") ++ "   popq %rbp\n"

/-- emitter.rs `emit_instructions`: renders one instruction at the end of the
buffer and terminates it with one line break.  A panic while rendering an
operand aborts before anything for this instruction reaches the buffer. -/
def emit_instructions (a_instruction : AInstructionNode) (output : String) :
    Except Panic String := do
  let output ← match a_instruction with
    | .Mov src dst => do
      let src ← direct_emit_operand src
      let dst ← direct_emit_operand dst
      pure (output ++ "   movl    " ++ src ++ ", " ++ dst)
    | .Ret => pure (emit_epilogue output ++ "   ret")
    | .Unary operator operand => do
      let operand ← direct_emit_operand operand
      let operator := direct_emit_operator operator
      pure (output ++ "   " ++ operator ++ "    " ++ operand)
    | .AllocateStack size => pure (output ++ "  subq    $" ++ toString size ++ ", %rsp")
  pure (output ++ "\n")

/-- emitter.rs `emit_function`: global directive, label, prologue, then each
instruction in order. -/
def emit_function (a_function : AFunctionDefinitionNode) (output : String) :
    Except Panic String :=
  match a_function with
  | .Function name instructions =>
    let output := output ++ "   .globl " ++ name ++ "\n"
    let output := output ++ name ++ ":\n"
    let output := emit_prologue output
    instructions.foldlM (fun acc a_instruction => emit_instructions a_instruction acc) output

/-- emitter.rs `emit_program`: the one function, then the no-execute-stack
trailer directive. -/
def emit_program (a_program : AProgramNode) (output : String) : Except Panic String :=
  match a_program with
  | .Program a_function => do
    let output ← emit_function a_function output
    pure (output ++ "   .section .note.GNU-stack,\"\",@progbits\n")

/-! ## Theory of the decrement-merge pass -/

/-- Functional characterization of the `postprocess_tokens` loop: scan left
to right and merge each freshly adjacent `Minus, Minus` pair into one
`Decrement`, without re-examining the merged result. -/
def mergeList : List Token → List Token
  | [] => []
  | [t] => [t]
  | a :: b :: rest =>
    if a = .Symbol .Minus ∧ b = .Symbol .Minus then .Symbol .Decrement :: mergeList rest
    else a :: mergeList (b :: rest)

theorem mergeList_cons_cons (a b : Token) (rest : List Token) :
    mergeList (a :: b :: rest) =
      if a = .Symbol .Minus ∧ b = .Symbol .Minus then .Symbol .Decrement :: mergeList rest
      else a :: mergeList (b :: rest) := by
  rw [mergeList]

theorem mergeList_cons_of_not (a : Token) (l : List Token)
    (h : ¬(a = .Symbol .Minus ∧ l.head? = some (.Symbol .Minus))) :
    mergeList (a :: l) = a :: mergeList l := by
  cases l with
  | nil => rfl
  | cons b rest =>
    rw [mergeList_cons_cons, if_neg]
    rintro ⟨h1, h2⟩
    exact h ⟨h1, by simp [h2]⟩

theorem mergeList_of_length_le_one (l : List Token) (h : l.length ≤ 1) :
    mergeList l = l := by
  match l with
  | [] => rfl
  | [t] => rfl
  | a :: b :: rest => simp at h

theorem ppLoop_stop (tokens : List Token) (i : Nat) (h : ¬ i < tokens.length - 1) :
    tokens.take i ++ mergeList (tokens.drop i) = tokens := by
  have h1 : (tokens.drop i).length ≤ 1 := by
    simp only [List.length_drop]
    omega
  rw [mergeList_of_length_le_one _ h1, List.take_append_drop]

theorem take_append_add {α : Type} (pre suf : List α) (k : Nat) :
    (pre ++ suf).take (pre.length + k) = pre ++ suf.take k := by
  rw [List.take_append_eq_append_take, List.take_of_length_le (by omega)]
  simp

theorem drop_append_add {α : Type} (pre suf : List α) (k : Nat) :
    (pre ++ suf).drop (pre.length + k) = suf.drop k := by
  rw [List.drop_append_eq_append_drop, List.drop_eq_nil_of_le (by omega)]
  simp

theorem ppLoop_eq_mergeList_aux :
    ∀ (n : Nat) (tokens : List Token) (i : Nat), tokens.length - i ≤ n →
      ppLoop tokens i = tokens.take i ++ mergeList (tokens.drop i) := by
  intro n
  induction n with
  | zero =>
    intro tokens i h
    rw [ppLoop, dif_neg (by omega)]
    exact (ppLoop_stop tokens i (by omega)).symm
  | succ n ih =>
    intro tokens i h
    rw [ppLoop]
    by_cases hlt : i < tokens.length - 1
    · rw [dif_pos hlt]
      have hi : i < tokens.length := by omega
      have hi1 : i + 1 < tokens.length := by omega
      have hpre : (tokens.take i).length = i := by
        simp [List.length_take]
        omega
      by_cases hm : tokens[i]? = some (.Symbol .Minus) ∧ tokens[i + 1]? = some (.Symbol .Minus)
      · rw [if_pos hm]
        have hgi : tokens[i] = Token.Symbol .Minus := by
          have h1 := hm.1
          rw [List.getElem?_eq_getElem hi] at h1
          exact Option.some_injective _ h1
        have hgi1 : tokens[i + 1] = Token.Symbol .Minus := by
          have h1 := hm.2
          rw [List.getElem?_eq_getElem hi1] at h1
          exact Option.some_injective _ h1
        have hd1 : tokens.drop (i + 1) = Token.Symbol .Minus :: tokens.drop (i + 2) := by
          rw [List.drop_eq_getElem_cons hi1, hgi1]
        have hset : tokens.set i (Token.Symbol .Decrement) =
            tokens.take i ++ Token.Symbol .Decrement :: tokens.drop (i + 1) :=
          List.set_eq_take_cons_drop _ hi
        have e4 : (Token.Symbol .Decrement :: tokens.drop (i + 1)).drop 2 =
            tokens.drop (i + 2) := by
          rw [hd1]
          rfl
        have t1 := take_append_add (tokens.take i) (Token.Symbol .Decrement :: tokens.drop (i + 1)) 1
        rw [hpre] at t1
        have t2 := drop_append_add (tokens.take i) (Token.Symbol .Decrement :: tokens.drop (i + 1)) 2
        rw [hpre] at t2
        have hE : (tokens.set i (Token.Symbol .Decrement)).eraseIdx (i + 1) =
            tokens.take i ++ Token.Symbol .Decrement :: tokens.drop (i + 2) := by
          rw [List.eraseIdx_eq_take_drop_succ, hset,
            show i + 1 + 1 = i + 2 from rfl, t1, t2, e4]
          simp only [List.append_assoc, List.singleton_append, List.cons_append,
            List.nil_append,
            show (Token.Symbol .Decrement :: tokens.drop (i + 1)).take 1 =
              [Token.Symbol .Decrement] from rfl]
        rw [hE]
        have hlen : (tokens.take i ++ Token.Symbol .Decrement :: tokens.drop (i + 2)).length =
            tokens.length - 1 := by
          simp only [List.length_append, List.length_cons, List.length_drop, hpre]
          omega
        rw [ih _ (i + 1) (by rw [hlen]; omega)]
        have htake2 : (tokens.take i ++ Token.Symbol .Decrement :: tokens.drop (i + 2)).take (i + 1) =
            tokens.take i ++ [Token.Symbol .Decrement] := by
          rw [show i + 1 = (tokens.take i).length + 1 from by rw [hpre], take_append_add]
          rfl
        have hdrop2 : (tokens.take i ++ Token.Symbol .Decrement :: tokens.drop (i + 2)).drop (i + 1) =
            tokens.drop (i + 2) := by
          rw [show i + 1 = (tokens.take i).length + 1 from by rw [hpre], drop_append_add]
          rfl
        rw [htake2, hdrop2]
        have hd0 : tokens.drop i = Token.Symbol .Minus :: Token.Symbol .Minus :: tokens.drop (i + 2) := by
          rw [List.drop_eq_getElem_cons hi, hgi, hd1]
        rw [hd0, mergeList_cons_cons, if_pos ⟨rfl, rfl⟩]
        simp only [List.append_assoc, List.singleton_append]
      · rw [if_neg hm]
        rw [ih tokens (i + 1) (by omega)]
        have hhd : (tokens.drop (i + 1)).head? = tokens[i + 1]? := List.head?_drop ..
        have hcons : mergeList (tokens.drop i) = tokens[i] :: mergeList (tokens.drop (i + 1)) := by
          rw [List.drop_eq_getElem_cons hi]
          apply mergeList_cons_of_not
          rintro ⟨h1, h2⟩
          exact hm ⟨by rw [List.getElem?_eq_getElem hi, h1], by rw [← hhd, h2]⟩
        rw [hcons, ← List.take_concat_get tokens i hi]
        simp only [List.concat_eq_append, List.append_assoc, List.cons_append, List.nil_append]
    · rw [dif_neg hlt]
      exact (ppLoop_stop tokens i hlt).symm

theorem ppLoop_eq_mergeList (tokens : List Token) (i : Nat) :
    ppLoop tokens i = tokens.take i ++ mergeList (tokens.drop i) :=
  ppLoop_eq_mergeList_aux tokens.length tokens i (by omega)

theorem ppLoop_zero (tokens : List Token) : ppLoop tokens 0 = mergeList tokens := by
  simpa using ppLoop_eq_mergeList tokens 0

theorem mergeList_head?_minus (l : List Token)
    (h : (mergeList l).head? = some (.Symbol .Minus)) :
    l.head? = some (.Symbol .Minus) := by
  match l with
  | [] => simp [mergeList] at h
  | [t] => simpa [mergeList] using h
  | a :: b :: rest =>
    rw [mergeList_cons_cons] at h
    split at h
    · simp at h
    · simpa using h

theorem mergeList_ne_nil (l : List Token) (h : l ≠ []) : mergeList l ≠ [] := by
  match l with
  | [] => exact absurd rfl h
  | [t] => simp [mergeList]
  | a :: b :: rest =>
    rw [mergeList_cons_cons]
    split <;> simp

theorem mergeList_of_not_mem (l : List Token) (h : Token.Symbol .Minus ∉ l) :
    mergeList l = l := by
  induction l with
  | nil => rfl
  | cons a rest ih =>
    have ha : a ≠ Token.Symbol .Minus := by
      intro heq
      exact h (heq ▸ List.mem_cons_self a rest)
    rw [mergeList_cons_of_not a rest (by rintro ⟨h1, h2⟩; exact ha h1)]
    rw [ih (fun hm => h (List.mem_cons_of_mem a hm))]

theorem mergeList_idem_aux :
    ∀ (n : Nat) (l : List Token), l.length ≤ n → mergeList (mergeList l) = mergeList l := by
  intro n
  induction n with
  | zero =>
    intro l h
    cases l with
    | nil => rfl
    | cons a rest => simp at h
  | succ n ih =>
    intro l h
    match l with
    | [] => rfl
    | [t] => rfl
    | a :: b :: rest =>
      rw [mergeList_cons_cons]
      by_cases hab : a = Token.Symbol .Minus ∧ b = Token.Symbol .Minus
      · rw [if_pos hab]
        rw [mergeList_cons_of_not _ _ (by rintro ⟨h1, h2⟩; simp at h1)]
        rw [ih rest (by simp at h; omega)]
      · rw [if_neg hab]
        rw [mergeList_cons_of_not _ _ ?hside]
        case hside =>
          rintro ⟨h1, h2⟩
          have hb := mergeList_head?_minus (b :: rest) h2
          simp at hb
          exact hab ⟨h1, hb⟩
        rw [ih (b :: rest) (by simp at h ⊢; omega)]

theorem mergeList_idem (l : List Token) : mergeList (mergeList l) = mergeList l :=
  mergeList_idem_aux l.length l (by omega)

theorem mergeList_append_aux :
    ∀ (n : Nat) (l1 : List Token), l1.length ≤ n →
      ∀ l2 : List Token, l1.getLast? ≠ some (.Symbol .Minus) →
        mergeList (l1 ++ l2) = mergeList l1 ++ mergeList l2 := by
  intro n
  induction n with
  | zero =>
    intro l1 h l2 hlast
    cases l1 with
    | nil => simp [mergeList]
    | cons a rest => simp at h
  | succ n ih =>
    intro l1 h l2 hlast
    match l1 with
    | [] => simp [mergeList]
    | [t] =>
      have ht : t ≠ Token.Symbol .Minus := by
        intro heq
        apply hlast
        simp [heq]
      cases l2 with
      | nil => simp [mergeList]
      | cons c r =>
        rw [show [t] ++ c :: r = t :: c :: r from rfl,
          mergeList_cons_of_not t (c :: r) (by rintro ⟨h1, h2⟩; exact ht h1)]
        rfl
    | a :: b :: t =>
      have hlast2 : (b :: t).getLast? ≠ some (.Symbol .Minus) := by
        rw [← List.getLast?_cons_cons (a := a)]
        exact hlast
      by_cases hab : a = Token.Symbol .Minus ∧ b = Token.Symbol .Minus
      · match t with
        | [] =>
          exfalso
          apply hlast
          rw [List.getLast?_cons_cons]
          simp [hab.2]
        | c :: t' =>
          have hlast3 : (c :: t').getLast? ≠ some (.Symbol .Minus) := by
            rw [← List.getLast?_cons_cons (a := b)]
            exact hlast2
          rw [show (a :: b :: c :: t') ++ l2 = a :: b :: ((c :: t') ++ l2) from rfl,
            mergeList_cons_cons, if_pos hab, mergeList_cons_cons, if_pos hab,
            ih (c :: t') (by simp at h ⊢; omega) l2 hlast3]
          rfl
      · rw [show (a :: b :: t) ++ l2 = a :: ((b :: t) ++ l2) from rfl,
          mergeList_cons_of_not a _ (by rintro ⟨h1, h2⟩; simp at h2; exact hab ⟨h1, h2⟩),
          ih (b :: t) (by simp at h ⊢; omega) l2 hlast2,
          mergeList_cons_of_not a (b :: t) (by rintro ⟨h1, h2⟩; simp at h2; exact hab ⟨h1, h2⟩)]
        rfl

theorem mergeList_append (l1 l2 : List Token) (h : l1.getLast? ≠ some (.Symbol .Minus)) :
    mergeList (l1 ++ l2) = mergeList l1 ++ mergeList l2 :=
  mergeList_append_aux l1.length l1 (by omega) l2 h

theorem mergeList_replicate_append :
    ∀ (n : Nat) (l : List Token), l.head? ≠ some (.Symbol .Minus) →
      mergeList (List.replicate n (.Symbol .Minus) ++ l) =
        List.replicate (n / 2) (.Symbol .Decrement) ++
          (if n % 2 = 1 then [Token.Symbol .Minus] else []) ++ mergeList l := by
  intro n
  induction n using Nat.strong_induction_on with
  | _ n ih =>
    match n with
    | 0 => intro l h; simp
    | 1 =>
      intro l h
      cases l with
      | nil => simp [mergeList]
      | cons c r =>
        rw [show List.replicate 1 (Token.Symbol .Minus) ++ c :: r =
            Token.Symbol .Minus :: c :: r from rfl,
          mergeList_cons_of_not _ _ (by rintro ⟨h1, h2⟩; simp at h2; exact h (by simp [h2]))]
        simp
    | m + 2 =>
      intro l h
      rw [show List.replicate (m + 2) (Token.Symbol .Minus) ++ l =
          Token.Symbol .Minus :: Token.Symbol .Minus ::
            (List.replicate m (Token.Symbol .Minus) ++ l) from by
          simp [List.replicate_succ],
        mergeList_cons_cons, if_pos ⟨rfl, rfl⟩, ih m (by omega) l h,
        show (m + 2) / 2 = m / 2 + 1 from by omega,
        show (m + 2) % 2 = m % 2 from by omega,
        List.replicate_succ]
      simp

/-! ## Stepping lemmas for the consumption machine -/

theorem consumeLoop_ready_nil (vec : List Token) :
    consumeLoop (.Ready []) vec = .ok vec := by
  simp only [consumeLoop]

theorem consumeLoop_done (cs : List Char) (t : Token) (vec : List Token) :
    consumeLoop (.Done cs t) vec = consumeLoop (.Ready cs) (vec ++ [t]) := by
  simp only [consumeLoop]

theorem consumeLoop_ready_symbol (c : Char) (s : SymbolToken) (cs : List Char)
    (vec : List Token) (h : check_for_symbol c = some s) (hs : s ≠ .CommentSymbol) :
    consumeLoop (.Ready (c :: cs)) vec = consumeLoop (.Done cs (.Symbol s)) vec := by
  cases s <;> simp only [consumeLoop, h] <;> exact absurd rfl hs

theorem consumeLoop_ready_slash (cs : List Char) (vec : List Token) :
    consumeLoop (.Ready ('/' :: cs)) vec =
      consumeLoop (.HandlingComment cs .PendingComment) vec := by
  simp only [consumeLoop, check_for_symbol]

theorem consumeLoop_ready_build (c : Char) (cs : List Char) (vec : List Token)
    (h : check_for_symbol c = none) :
    consumeLoop (.Ready (c :: cs)) vec = consumeLoop (.Building cs c.toString) vec := by
  simp only [consumeLoop, h]

theorem consumeLoop_hc_pending_line (cs : List Char) (vec : List Token) :
    consumeLoop (.HandlingComment ('/' :: cs) .PendingComment) vec =
      consumeLoop (.HandlingComment cs .LineComment) vec := by
  simp only [consumeLoop, if_pos]

theorem consumeLoop_hc_pending_block (cs : List Char) (vec : List Token) :
    consumeLoop (.HandlingComment ('*' :: cs) .PendingComment) vec =
      consumeLoop (.HandlingComment cs .BlockComment) vec := by
  simp only [consumeLoop]
  rfl

theorem consumeLoop_hc_line_nl (cs : List Char) (vec : List Token) :
    consumeLoop (.HandlingComment ('\n' :: cs) .LineComment) vec =
      consumeLoop (.Done cs (.Comment .LineComment)) vec := by
  simp only [consumeLoop, if_pos]

theorem consumeLoop_hc_line_other (c : Char) (cs : List Char) (vec : List Token)
    (h : c ≠ '\n') :
    consumeLoop (.HandlingComment (c :: cs) .LineComment) vec =
      consumeLoop (.HandlingComment cs .LineComment) vec := by
  simp only [consumeLoop, h, if_neg, ite_false]

theorem consumeLoop_hc_block_close (cs : List Char) (vec : List Token) :
    consumeLoop (.HandlingComment ('*' :: '/' :: cs) .BlockComment) vec =
      consumeLoop (.Done cs (.Comment .BlockComment)) vec := by
  simp only [consumeLoop]

theorem consumeLoop_hc_block_star (d : Char) (cs : List Char) (vec : List Token)
    (h : d ≠ '/') :
    consumeLoop (.HandlingComment ('*' :: d :: cs) .BlockComment) vec =
      consumeLoop (.HandlingComment cs .BlockComment) vec := by
  simp only [consumeLoop, h, if_neg, ite_false]

theorem consumeLoop_hc_block_other (c : Char) (cs : List Char) (vec : List Token)
    (h : c ≠ '*') :
    consumeLoop (.HandlingComment (c :: cs) .BlockComment) vec =
      consumeLoop (.HandlingComment cs .BlockComment) vec := by
  simp only [consumeLoop, h, if_neg, ite_false]

theorem consumeLoop_building_nil_ok (val : String) (t : Token) (vec : List Token)
    (hok : match_non_symbol_token val = .ok t) :
    consumeLoop (.Building [] val) vec = consumeLoop (.Done [] t) vec := by
  simp only [consumeLoop, hok]

theorem consumeLoop_building_nil_error (val : String) (e : String) (vec : List Token)
    (herr : match_non_symbol_token val = .error e) :
    consumeLoop (.Building [] val) vec =
      .error ⟨"Non-symbol token matching raised an error: " ++ e⟩ := by
  simp only [consumeLoop, herr]

theorem consumeLoop_building_sym_ok (c : Char) (cs : List Char) (val : String)
    (t : Token) (vec : List Token) (h : (check_for_symbol c).isSome = true)
    (hok : match_non_symbol_token val = .ok t) :
    consumeLoop (.Building (c :: cs) val) vec = consumeLoop (.Done (c :: cs) t) vec := by
  simp only [consumeLoop, h, hok, if_pos]

theorem consumeLoop_building_sym_error (c : Char) (cs : List Char) (val : String)
    (e : String) (vec : List Token) (h : (check_for_symbol c).isSome = true)
    (herr : match_non_symbol_token val = .error e) :
    consumeLoop (.Building (c :: cs) val) vec =
      .error ⟨"Non-symbol token matching raised an error: " ++ e⟩ := by
  simp only [consumeLoop, h, herr, if_pos]

theorem consumeLoop_building_cont (c : Char) (cs : List Char) (val : String)
    (vec : List Token) (h : check_for_symbol c = none) :
    consumeLoop (.Building (c :: cs) val) vec =
      consumeLoop (.Building cs (val.push c)) vec := by
  have hsp : c ≠ ' ' := by
    intro heq
    rw [heq] at h
    simp [check_for_symbol] at h
  simp only [consumeLoop, h, Option.isSome_none, Bool.false_eq_true, if_false, hsp,
    if_neg, ite_false]

/-! ## Well-formed inputs of the lexer -/

/-- A token boundary for the `Building` state: end of input or a symbol
character next (the space test of the source is subsumed, since the space is
itself a symbol character). -/
def boundary (cs : List Char) : Bool :=
  match cs with
  | [] => true
  | c :: _ => (check_for_symbol c).isSome

/-- `BlockEnd cs rest` holds when the `BlockComment` arm of the machine,
started on `cs`, finds a closing sequence and leaves `rest` unconsumed.  It
mirrors the machine's scan exactly: after a `*` the following character is
consumed as well, whatever it is. -/
inductive BlockEnd : List Char → List Char → Prop where
  | close (rest : List Char) : BlockEnd ('*' :: '/' :: rest) rest
  | starSkip (d : Char) (cs rest : List Char) :
      d ≠ '/' → BlockEnd cs rest → BlockEnd ('*' :: d :: cs) rest
  | skip (c : Char) (cs rest : List Char) :
      c ≠ '*' → BlockEnd cs rest → BlockEnd (c :: cs) rest

/-- Inputs on which the consumption machine runs to completion: sequences of
non-comment symbol characters, classifiable lexemes ending at a boundary,
line comments terminated by a line feed, and block comments the machine's
scan closes. -/
inductive Good : List Char → Prop where
  | nil : Good []
  | sym (c : Char) (s : SymbolToken) (cs : List Char) :
      check_for_symbol c = some s → s ≠ .CommentSymbol → Good cs → Good (c :: cs)
  | lexeme (value rest : List Char) :
      value ≠ [] → (∀ c ∈ value, check_for_symbol c = none) →
      (match_non_symbol_token (String.mk value)).isOk = true →
      boundary rest = true → Good rest → Good (value ++ rest)
  | lineComment (body rest : List Char) :
      '\n' ∉ body → Good rest → Good ('/' :: '/' :: (body ++ '\n' :: rest))
  | blockComment (cs rest : List Char) :
      BlockEnd cs rest → Good rest → Good ('/' :: '*' :: cs)

theorem building_run_ok :
    ∀ (v2 rest : List Char) (acc : String) (t : Token) (vec : List Token),
      (∀ c ∈ v2, check_for_symbol c = none) → boundary rest = true →
      match_non_symbol_token (String.mk (acc.data ++ v2)) = .ok t →
      consumeLoop (.Building (v2 ++ rest) acc) vec =
        consumeLoop (.Ready rest) (vec ++ [t]) := by
  intro v2
  induction v2 with
  | nil =>
    intro rest acc t vec h2 hb hok
    have hacc : String.mk (acc.data ++ []) = acc := by
      rw [List.append_nil]
    rw [hacc] at hok
    cases rest with
    | nil =>
      rw [show ([] : List Char) ++ [] = [] from rfl,
        consumeLoop_building_nil_ok acc t vec hok, consumeLoop_done]
    | cons c r =>
      have hc : (check_for_symbol c).isSome = true := by
        simpa [boundary] using hb
      rw [show ([] : List Char) ++ c :: r = c :: r from rfl,
        consumeLoop_building_sym_ok c r acc t vec hc hok, consumeLoop_done]
  | cons d v2' ih =>
    intro rest acc t vec h2 hb hok
    rw [show (d :: v2') ++ rest = d :: (v2' ++ rest) from rfl,
      consumeLoop_building_cont d _ acc vec (h2 d (by simp))]
    apply ih rest (acc.push d) t vec (fun c hc => h2 c (List.mem_cons_of_mem d hc)) hb
    have hdata : (acc.push d).data = acc.data ++ [d] := rfl
    rw [hdata, List.append_assoc]
    exact hok

theorem lineComment_run :
    ∀ (body rest : List Char) (vec : List Token), '\n' ∉ body →
      consumeLoop (.HandlingComment (body ++ '\n' :: rest) .LineComment) vec =
        consumeLoop (.Done rest (.Comment .LineComment)) vec := by
  intro body
  induction body with
  | nil => intro rest vec h; exact consumeLoop_hc_line_nl rest vec
  | cons c b ih =>
    intro rest vec h
    have hc : c ≠ '\n' := by
      intro heq
      exact h (heq ▸ List.mem_cons_self c b)
    rw [show (c :: b) ++ '\n' :: rest = c :: (b ++ '\n' :: rest) from rfl,
      consumeLoop_hc_line_other c _ vec hc]
    exact ih rest vec (fun hm => h (List.mem_cons_of_mem c hm))

theorem blockEnd_run (cs rest : List Char) (h : BlockEnd cs rest) :
    ∀ vec : List Token,
      consumeLoop (.HandlingComment cs .BlockComment) vec =
        consumeLoop (.Done rest (.Comment .BlockComment)) vec := by
  induction h with
  | close r => intro vec; exact consumeLoop_hc_block_close r vec
  | starSkip d cs2 r hd hbe ih =>
    intro vec
    rw [consumeLoop_hc_block_star d cs2 vec hd]
    exact ih vec
  | skip c cs2 r hc hbe ih =>
    intro vec
    rw [consumeLoop_hc_block_other c cs2 vec hc]
    exact ih vec

theorem consume_good (cs : List Char) (h : Good cs) :
    ∀ vec : List Token, ∃ ts : List Token,
      consumeLoop (.Ready cs) vec = .ok (vec ++ ts) ∧ (cs ≠ [] → ts ≠ []) := by
  induction h with
  | nil =>
    intro vec
    exact ⟨[], by rw [consumeLoop_ready_nil]; simp, by simp⟩
  | sym c s cs2 hc hs hg ih =>
    intro vec
    obtain ⟨ts, hts, _⟩ := ih (vec ++ [Token.Symbol s])
    refine ⟨Token.Symbol s :: ts, ?_, by simp⟩
    rw [consumeLoop_ready_symbol c s cs2 vec hc hs, consumeLoop_done, hts]
    simp
  | lexeme value rest hne h2 hok hb hg ih =>
    intro vec
    match value, hne with
    | v0 :: v2, _ =>
      obtain ⟨t, ht⟩ : ∃ t, match_non_symbol_token (String.mk (v0 :: v2)) = .ok t := by
        cases hmm : match_non_symbol_token (String.mk (v0 :: v2)) with
        | ok t => exact ⟨t, rfl⟩
        | error e => rw [hmm] at hok; simp [Except.isOk, Except.toBool] at hok
      obtain ⟨ts, hts, _⟩ := ih (vec ++ [t])
      refine ⟨t :: ts, ?_, by simp⟩
      have hsing : (v0.toString).data = [v0] := rfl
      rw [show (v0 :: v2) ++ rest = v0 :: (v2 ++ rest) from rfl,
        consumeLoop_ready_build v0 _ vec (h2 v0 (by simp)),
        building_run_ok v2 rest v0.toString t vec (fun c hc => h2 c (by simp [hc])) hb
          (by rw [hsing]; exact ht),
        hts]
      simp
  | lineComment body rest hnb hg ih =>
    intro vec
    obtain ⟨ts, hts, _⟩ := ih (vec ++ [Token.Comment .LineComment])
    refine ⟨Token.Comment .LineComment :: ts, ?_, by simp⟩
    rw [consumeLoop_ready_slash, consumeLoop_hc_pending_line,
      lineComment_run body rest vec hnb, consumeLoop_done, hts]
    simp
  | blockComment cs2 rest hbe hg ih =>
    intro vec
    obtain ⟨ts, hts, _⟩ := ih (vec ++ [Token.Comment .BlockComment])
    refine ⟨Token.Comment .BlockComment :: ts, ?_, by simp⟩
    rw [consumeLoop_ready_slash, consumeLoop_hc_pending_block,
      blockEnd_run cs2 rest hbe vec, consumeLoop_done, hts]
    simp

/-! ## Auxiliary definitions used by the claims -/

/-- Whether a value is one of the three reserved words of the keyword arms
of `match_non_symbol_token`. -/
def is_keyword (value : String) : Bool :=
  value == "int" || value == "void" || value == "return"

/-- Whether an operand is the unresolved pseudo-register shape. -/
def is_pseudo : AOperandNode → Bool
  | .Pseudo _ => true
  | _ => false

/-- Whether an instruction carries an operand that is not an `Imm`, `Reg`
or `Stack`. -/
def has_pseudo_operand : AInstructionNode → Bool
  | .Mov src dst => is_pseudo src || is_pseudo dst
  | .Unary _ operand => is_pseudo operand
  | .Ret => false
  | .AllocateStack _ => false

/-! ## Claims -/

/-- Claim C1 (counterexample): on the input `@`, whose single lexeme matches
neither the keyword, identifier, nor constant pattern, `lex` does not return
a recoverable failure value: it panics (the `.expect` unwrap in the
`Building` arm of `consume`), aborting the process.  `lex`'s return type
(`Vec<Token>` in the source) has no recoverable failure channel at all. -/
theorem claim_C1_counterexample :
    lex "@" = .error
      ⟨"Non-symbol token matching raised an error: @ did not match an identifier or a constant"⟩ := by
  have hcons : consume "@".data [] = .error
      ⟨"Non-symbol token matching raised an error: @ did not match an identifier or a constant"⟩ := by
    simp [consume, consumeLoop, check_for_symbol]
    decide
  simp only [lex, hcons]

/-- Claim C1 (amended): the classifier `match_identifier_or_constant` does
produce a descriptive, recoverable `Err` value carrying the offending text,
but `consume` unwraps it with `.expect`, so `lex` aborts the process
(panics) on an unclassifiable lexeme instead of surfacing that value to the
caller; shown concretely on the input `@`. -/
theorem claim_C1_amended :
    (∀ value : String, identifier_is_match value.data = false →
      constant_is_match value.data = false →
      match_identifier_or_constant value =
        .error (value ++ " did not match an identifier or a constant")) ∧
    lex "@" = .error
      ⟨"Non-symbol token matching raised an error: @ did not match an identifier or a constant"⟩ := by
  constructor
  · intro value h1 h2
    simp [match_identifier_or_constant, h1, h2]
  · have hcons : consume "@".data [] = .error
        ⟨"Non-symbol token matching raised an error: @ did not match an identifier or a constant"⟩ := by
      simp [consume, consumeLoop, check_for_symbol]
      decide
    simp only [lex, hcons]

/-- Witness for C1: the hypotheses of the amended claim hold at the value
`@`, and the classifier returns the recoverable error carrying it. -/
theorem claim_C1_witness :
    identifier_is_match "@".data = false ∧ constant_is_match "@".data = false ∧
      match_identifier_or_constant "@" =
        .error "@ did not match an identifier or a constant" :=
  ⟨by decide, by decide, claim_C1_amended.1 "@" (by decide) (by decide)⟩

/-- Claim C2 (counterexample): lexing `int main(void){return 2;}` does not
return the ten-token sequence of the claim: the machine also emits a
`Whitespace` symbol token for each of the two spaces in the source text. -/
theorem claim_C2_counterexample :
    lex "int main(void)\x7breturn 2;\x7d" ≠
      .ok [.Keyword .Int, .Identifier "main", .Symbol .OpenParen, .Keyword .Void,
        .Symbol .CloseParen, .Symbol .OpenBrace, .Keyword .Return, .Constant "2",
        .Symbol .Semicolon, .Symbol .CloseBrace] := by
  have hcons : consume "int main(void)\x7breturn 2;\x7d".data [] =
      .ok [.Keyword .Int, .Symbol .Whitespace, .Identifier "main", .Symbol .OpenParen,
        .Keyword .Void, .Symbol .CloseParen, .Symbol .OpenBrace, .Keyword .Return,
        .Symbol .Whitespace, .Constant "2", .Symbol .Semicolon, .Symbol .CloseBrace] := by
    simp [consume, consumeLoop, check_for_symbol]
    decide
  simp only [lex, hcons, postprocess_tokens]
  rw [if_neg (by decide), ppLoop_zero]
  decide

/-- Claim C2 (amended): lexing `int main(void){return 2;}` returns the
twelve-token sequence with a `Whitespace` symbol token after `Keyword(Int)`
and after `Keyword(Return)`; the other ten tokens appear exactly in the
claimed order. -/
theorem claim_C2_amended :
    lex "int main(void)\x7breturn 2;\x7d" =
      .ok [.Keyword .Int, .Symbol .Whitespace, .Identifier "main", .Symbol .OpenParen,
        .Keyword .Void, .Symbol .CloseParen, .Symbol .OpenBrace, .Keyword .Return,
        .Symbol .Whitespace, .Constant "2", .Symbol .Semicolon, .Symbol .CloseBrace] := by
  have hcons : consume "int main(void)\x7breturn 2;\x7d".data [] =
      .ok [.Keyword .Int, .Symbol .Whitespace, .Identifier "main", .Symbol .OpenParen,
        .Keyword .Void, .Symbol .CloseParen, .Symbol .OpenBrace, .Keyword .Return,
        .Symbol .Whitespace, .Constant "2", .Symbol .Semicolon, .Symbol .CloseBrace] := by
    simp [consume, consumeLoop, check_for_symbol]
    decide
  simp only [lex, hcons, postprocess_tokens]
  rw [if_neg (by decide), ppLoop_zero]
  decide

/-- Claim C3 (counterexample): the input `/x` is over the supported
character set (`/` is a listed symbol, `x` a letter), contains no lexeme at
all, has a character rather than end of input at the comment-disambiguation
point, and contains no block comment — yet `lex` fails, with the
malformed-comment-marker panic.  So the three conditions of the claim are
not the only failure conditions. -/
theorem claim_C3_counterexample :
    lex "/x" = .error ⟨"Impossible comment value"⟩ := by
  have hcons : consume "/x".data [] = .error ⟨"Impossible comment value"⟩ := by
    simp [consume, consumeLoop, check_for_symbol]
  simp only [lex, hcons]

/-- Claim C3 (amended): besides the three conditions of the claim, `lex`
also fails on a comment-start `/` followed by a character other than `/` or
`*`, on a line comment unterminated at end of input, and on empty input
(the post-processing length computation underflows).  On every non-empty
input of the well-formed shape `Good` — non-comment symbols, classifiable
lexemes ending at a token boundary, line comments closed by a line feed and
block comments closed under the machine's pairwise scan — `lex` terminates
with a token sequence and does not fail. -/
theorem claim_C3_amended (cs : List Char) (hg : Good cs) (hne : cs ≠ []) :
    ∃ ts : List Token, lex (String.mk cs) = .ok ts := by
  obtain ⟨ts, hts, hne2⟩ := consume_good cs hg []
  have hdata : (String.mk cs).data = cs := rfl
  refine ⟨ppLoop ts 0, ?_⟩
  simp only [lex, hdata, consume, hts, List.nil_append, postprocess_tokens]
  rw [if_neg ?hlen]
  case hlen =>
    have : ts ≠ [] := hne2 hne
    simpa [List.length_eq_zero] using this

/-- Witness for C3: the input `a;` is `Good` and non-empty, and `lex`
returns a token sequence on it. -/
theorem claim_C3_witness :
    Good ['a', ';'] ∧ ∃ ts : List Token, lex (String.mk ['a', ';']) = .ok ts := by
  have hsemi : Good [';'] :=
    Good.sym ';' .Semicolon [] (by decide) (by decide) Good.nil
  have hg : Good ['a', ';'] :=
    Good.lexeme ['a'] [';'] (by decide) (by decide) (by decide) (by decide) hsemi
  exact ⟨hg, claim_C3_amended ['a', ';'] hg (by decide)⟩

/-- Claim C4 (confirmed): an instruction carrying an operand that is not an
`Imm`, `Reg` or `Stack` (an unresolved pseudo-register) makes
`emit_instructions` abort with the emitter-stage panic, and no text for
that instruction is appended to the buffer (the result is the bare panic,
not an extended buffer). -/
theorem direct_emit_operand_pseudo (a_operand : AOperandNode)
    (h : is_pseudo a_operand = true) :
    direct_emit_operand a_operand = .error ⟨"invalid operand found in emitter stage"⟩ := by
  cases a_operand <;> first
    | rfl
    | simp [is_pseudo] at h

theorem direct_emit_operand_resolved (a_operand : AOperandNode)
    (h : is_pseudo a_operand = false) :
    ∃ s : String, direct_emit_operand a_operand = .ok s := by
  cases a_operand with
  | Imm c => exact ⟨_, rfl⟩
  | Reg reg => cases reg <;> exact ⟨_, rfl⟩
  | Stack addr => exact ⟨_, rfl⟩
  | Pseudo name => simp [is_pseudo] at h

theorem claim_C4 (a_instruction : AInstructionNode) (output : String)
    (h : has_pseudo_operand a_instruction = true) :
    emit_instructions a_instruction output =
      .error ⟨"invalid operand found in emitter stage"⟩ := by
  cases a_instruction with
  | Mov src dst =>
    simp only [has_pseudo_operand, Bool.or_eq_true] at h
    by_cases hs : is_pseudo src = true
    · simp only [emit_instructions]
      rw [direct_emit_operand_pseudo src hs]
      simp [Except.instMonad, Except.bind, Except.map]
    · have hd : is_pseudo dst = true := by
        rcases h with h | h
        · exact absurd h hs
        · exact h
      obtain ⟨s, hsok⟩ := direct_emit_operand_resolved src (by simpa using hs)
      simp only [emit_instructions]
      rw [hsok, direct_emit_operand_pseudo dst hd]
      simp [Except.instMonad, Except.bind, Except.map]
  | Ret => simp [has_pseudo_operand] at h
  | Unary operator operand =>
    have hop : is_pseudo operand = true := by
      simpa [has_pseudo_operand] using h
    simp only [emit_instructions]
    rw [direct_emit_operand_pseudo operand hop]
    simp [Except.instMonad, Except.bind, Except.map]
  | AllocateStack size => simp [has_pseudo_operand] at h

/-- Witness for C4: a move from a pseudo-register into the accumulator has
a pseudo operand, and emitting it into an empty buffer aborts. -/
theorem claim_C4_witness :
    has_pseudo_operand (.Mov (.Pseudo "tmp0") (.Reg .AX)) = true ∧
      emit_instructions (.Mov (.Pseudo "tmp0") (.Reg .AX)) "" =
        .error ⟨"invalid operand found in emitter stage"⟩ :=
  ⟨by decide, claim_C4 (.Mov (.Pseudo "tmp0") (.Reg .AX)) "" (by decide)⟩

/-- Claim C5 (confirmed): emitting `Function("main", [Move(Immediate(2),
Register(AX)), UnaryOp(Negate, Register(AX)), Return])` produces, in order,
the global directive, the `main:` label, the two prologue instructions, a
`movl` from `$2` to `%eax`, a `negl` on `%eax`, the two epilogue
instructions, and `ret`. -/
theorem claim_C5 :
    emit_function (.Function "main"
        [.Mov (.Imm 2) (.Reg .AX), .Unary .Neg (.Reg .AX), .Ret]) "" =
      .ok ("   .globl main\nmain:\n    pushq %rbp\n    movq %rsp, %rbp\n" ++
        "   movl    $2, %eax\n   negl    %eax\n" ++
        "   movq %rbp, %rsp\n   popq %rbp\n   ret\n") := by
  decide

/-- Claim C6 (confirmed): the decrement-merge pass is idempotent.  Applied
to the result of a first application (sequencing the two runs with
`Except.bind`, since the pass fails on an empty vector) it returns that
result unchanged. -/
theorem claim_C6 (tokens : List Token) :
    Except.bind (postprocess_tokens tokens) postprocess_tokens =
      postprocess_tokens tokens := by
  by_cases h : tokens.length = 0
  · simp [postprocess_tokens, h, Except.bind]
  · simp only [postprocess_tokens, if_neg h, Except.bind]
    rw [ppLoop_zero, ppLoop_zero]
    have hne : mergeList tokens ≠ [] := by
      apply mergeList_ne_nil
      simpa [← List.length_eq_zero] using h
    rw [if_neg (by simpa [List.length_eq_zero] using hne), mergeList_idem]

/-- Claim C7 (confirmed): a maximal run of `n ≥ 1` adjacent `Minus` tokens
(the neighbours on each side, if any, are not `Minus`) is rewritten by the
merge pass into `n / 2` `Decrement` tokens followed by one trailing `Minus`
exactly when `n` is odd, while the surrounding segments are processed
independently; and a sequence containing no `Minus` at all is left entirely
unchanged by the loop. -/
theorem claim_C7 :
    (∀ (pre suf : List Token) (n : Nat), 1 ≤ n →
      pre.getLast? ≠ some (.Symbol .Minus) → suf.head? ≠ some (.Symbol .Minus) →
      postprocess_tokens (pre ++ List.replicate n (.Symbol .Minus) ++ suf) =
        .ok (mergeList pre ++ List.replicate (n / 2) (.Symbol .Decrement) ++
          (if n % 2 = 1 then [Token.Symbol .Minus] else []) ++ mergeList suf)) ∧
    (∀ tokens : List Token, Token.Symbol .Minus ∉ tokens → ppLoop tokens 0 = tokens) := by
  constructor
  · intro pre suf n hn h1 h2
    have hlen : (pre ++ List.replicate n (Token.Symbol .Minus) ++ suf).length ≠ 0 := by
      simp
      omega
    simp only [postprocess_tokens, if_neg hlen]
    rw [ppLoop_zero, List.append_assoc, mergeList_append pre _ h1,
      mergeList_replicate_append n suf h2]
    simp [List.append_assoc]
  · intro tokens h
    rw [ppLoop_zero, mergeList_of_not_mem tokens h]

/-- Witness for C7: a run of three `Minus` tokens between an identifier and
a semicolon merges into one `Decrement` and one trailing `Minus`, and a
`Minus`-free sequence is unchanged. -/
theorem claim_C7_witness :
    postprocess_tokens ([Token.Identifier "a"] ++
        List.replicate 3 (.Symbol .Minus) ++ [Token.Symbol .Semicolon]) =
      .ok (mergeList [Token.Identifier "a"] ++
        List.replicate (3 / 2) (.Symbol .Decrement) ++
        (if 3 % 2 = 1 then [Token.Symbol .Minus] else []) ++
        mergeList [Token.Symbol .Semicolon]) ∧
      ppLoop [Token.Keyword .Int] 0 = [Token.Keyword .Int] :=
  ⟨claim_C7.1 [Token.Identifier "a"] [Token.Symbol .Semicolon] 3 (by decide)
      (by decide) (by decide),
    claim_C7.2 [Token.Keyword .Int] (by decide)⟩

/-- Claim C8 (confirmed): no value is simultaneously a keyword, an
identifier match and a constant match (indeed identifier and constant
matches are already mutually exclusive, since an identifier starts with a
letter or underscore and a constant with a digit), and classification maps
each of the three reserved words to its `Keyword` token, never to an
`Identifier`. -/
theorem claim_C8 :
    (∀ value : String,
      (is_keyword value && identifier_is_match value.data && constant_is_match value.data) =
        false) ∧
    match_non_symbol_token "int" = .ok (.Keyword .Int) ∧
    match_non_symbol_token "void" = .ok (.Keyword .Void) ∧
    match_non_symbol_token "return" = .ok (.Keyword .Return) := by
  refine ⟨?_, by decide, by decide, by decide⟩
  intro value
  rcases hd : value.data with _ | ⟨c, rest⟩
  · simp [identifier_is_match, hd]
  · by_cases hc : constant_is_match (c :: rest) = true
    · have hdig : 48 ≤ c.toNat ∧ c.toNat ≤ 57 := by
        simp [constant_is_match] at hc
        exact hc.1
      have hstart : is_ident_start c = false := by
        simp [is_ident_start]
        omega
      simp [identifier_is_match, hd, hstart]
    · rw [Bool.not_eq_true] at hc
      simp [hd, hc]

/-- Claim C9 (confirmed): on the empty input the consumption machine
produces the empty token vector, and the post-processing pass then computes
`tokens.len() - 1` on `usize`, which fails on an empty vector (overflow
panic in debug builds; in release builds the wrapped bound makes `tokens[0]`
panic instead), so `lex ""` always fails rather than returning the empty
sequence. -/
theorem claim_C9 :
    lex "" = .error ⟨"attempt to subtract with overflow"⟩ := by
  have hcons : consume "".data [] = .ok [] := by
    simp [consume, consumeLoop]
  simp [lex, hcons, postprocess_tokens]

/-- Claim C10 (confirmed): the emitter is deterministic — its output is a
function only of the instruction tree and the initial buffer contents, so
emitting the same resolved tree into two initially equal buffers yields
byte-identical output text. -/
theorem claim_C10 (a_program : AProgramNode) (buffer1 buffer2 : String)
    (h : buffer1 = buffer2) :
    emit_program a_program buffer1 = emit_program a_program buffer2 := by
  rw [h]

/-- Witness for C10: emitting a one-instruction program twice into the empty
buffer gives the same text. -/
theorem claim_C10_witness :
    ("" : String) = "" ∧
      emit_program (.Program (.Function "main" [.Ret])) "" =
        emit_program (.Program (.Function "main" [.Ret])) "" :=
  ⟨rfl, claim_C10 (.Program (.Function "main" [.Ret])) "" "" rfl⟩
